import Mathlib

/-!
Verification of the `cpp_demangle` crate's symbol façade (`src/lib.rs`) and of
the grammar/substitution/rendering core it drives.  Only `lib.rs` is present in
the repository snapshot; the `ast`, `subs`, `index_str` and `error` modules it
uses are modelled from the specification (position-tracked view §4.1,
substitution table §4.2, grammar/AST parser §4.3, demangling renderer §4.4,
error kinds §7).  The façade (`Symbol::new`, `Symbol::with_tail`, the `Display`
impl) is embedded directly from `lib.rs`.
-/

namespace CppDemangle

/-- Modelled from the spec: the crate's `error` module is not in `src/`.
These are the distinguishable error kinds of spec §7.  `lib.rs` line 108 spells
the trailing-bytes kind `Error::UnexpectedText`; the spec names it
`UnexpectedTrailingBytes`. -/
inductive Error
  | UnexpectedEnd
  | UnexpectedToken
  | InvalidBackReference
  | RecursionLimitExceeded
  | UnexpectedTrailingBytes
  | FormattingError
deriving DecidableEq, Repr

/-- Modelled from the spec: §4.3 says the depth guard "aborts" the parse and §3
says invalid back-references "must be rejected"; these two kinds therefore
propagate out of alternative-trying loops instead of triggering fallback. -/
def Error.isFatal : Error → Bool
  | .RecursionLimitExceeded => true
  | .InvalidBackReference => true
  | _ => false

/-- Modelled from the spec: the position-tracked view of §3/§4.1 — a buffer
reference plus a current offset; slicing only narrows, never copies.  The
crate's `index_str::IndexStr` is not in `src/`. -/
structure IndexStr where
  buf : List Char
  idx : Nat
deriving DecidableEq, Repr

/-- Modelled from the spec: `new(bytes)` starts the cursor at offset 0. -/
def IndexStr.new (b : List Char) : IndexStr := ⟨b, 0⟩

/-- The bytes not yet consumed by the cursor. -/
def IndexStr.rest (s : IndexStr) : List Char := s.buf.drop s.idx

/-- Modelled from the spec: `is_empty()` of the position-tracked view. -/
def IndexStr.isEmpty (s : IndexStr) : Bool := s.rest.isEmpty

/-- Modelled from the spec: `peek()` of the position-tracked view. -/
def IndexStr.peek (s : IndexStr) : Option Char := s.rest.head?

/-- Advance the cursor by `n` positions (the buffer itself is untouched). -/
def IndexStr.advance (s : IndexStr) (n : Nat) : IndexStr := ⟨s.buf, s.idx + n⟩

/-- Modelled from the spec: `take(n)` yields the next `n` bytes and the
advanced cursor, or fails with `UnexpectedEnd` if fewer than `n` remain. -/
def IndexStr.take (s : IndexStr) (n : Nat) : Except Error (List Char × IndexStr) :=
  if s.idx + n ≤ s.buf.length then .ok (s.rest.take n, s.advance n)
  else .error .UnexpectedEnd

/-- Modelled from the spec: the builtin (fundamental) type codes of the
mangling grammar covered by this fragment, with their single-letter codes. -/
inductive BuiltinType
  | void
  | bool
  | char
  | int
  | long
  | float
  | double
  | short
deriving DecidableEq, Repr

/-- Decode a builtin type code character. -/
def BuiltinType.ofChar : Char → Option BuiltinType
  | 'v' => some .void
  | 'b' => some .bool
  | 'c' => some .char
  | 'i' => some .int
  | 'l' => some .long
  | 'f' => some .float
  | 'd' => some .double
  | 's' => some .short
  | _ => none

/-- The C++ source text of a builtin type. -/
def BuiltinType.text : BuiltinType → String
  | .void => "void"
  | .bool => "bool"
  | .char => "char"
  | .int => "int"
  | .long => "long"
  | .float => "float"
  | .double => "double"
  | .short => "short"

/-- Modelled from the spec: the AST of §3 — one variant per grammar production
of the modelled fragment.  A back-reference is stored as a plain integer index
into the substitution table, resolved on demand during rendering, never as a
direct link (spec §3, §9).  Identifier literals are owned by the node (spec §3
allows exactly this exception). -/
inductive Node
  | builtin (b : BuiltinType)
  | pointerTo (inner : Node)
  | refTo (inner : Node)
  | arrayOf (size : Nat) (inner : Node)
  | backRef (index : Nat)
  | sourceName (ident : String)
  | nested (components : List String)
  | functionEncoding (name : Node) (params : List Node)
  | dataEncoding (name : Node)

/-- Modelled from the spec: the append-only substitution table of §4.2; the
crate's `subs::SubstitutionTable` is not in `src/`. -/
structure SubstitutionTable where
  entries : List Node

/-- An empty substitution table (`SubstitutionTable::new`). -/
def SubstitutionTable.new : SubstitutionTable := ⟨[]⟩

/-- Modelled from the spec: `insert(node) -> index` appends and returns the new
entry's index; there is no update or delete operation. -/
def SubstitutionTable.insert (st : SubstitutionTable) (n : Node) :
    SubstitutionTable × Nat :=
  (⟨st.entries ++ [n]⟩, st.entries.length)

/-- Modelled from the spec: `get(index)`; `none` models the out-of-range
error, which the parser's own bound check makes unreachable. -/
def SubstitutionTable.get (st : SubstitutionTable) (i : Nat) : Option Node :=
  st.entries[i]?

/-- Numeric value of a decimal digit string. -/
def natFromDigits (digits : List Char) : Nat :=
  digits.foldl (fun acc c => acc * 10 + (c.toNat - 48)) 0

/-- Modelled from the spec: a decimal number field (§4.3): nonempty digit run,
leading zero-as-length ambiguity rejected. -/
def parseNumber (s : IndexStr) : Except Error (Nat × IndexStr) :=
  let digits := s.rest.takeWhile Char.isDigit
  if digits.isEmpty then .error .UnexpectedToken
  else if digits.head? = some '0' ∧ 1 < digits.length then .error .UnexpectedToken
  else .ok (natFromDigits digits, s.advance digits.length)

/-- Modelled from the spec: a length-prefixed source name; the length must be
positive and must not read past the end of input (§4.3). -/
def parseSourceName (s : IndexStr) : Except Error (String × IndexStr) :=
  match parseNumber s with
  | .error e => .error e
  | .ok (n, s1) =>
    if n = 0 then .error .UnexpectedToken
    else
      match s1.take n with
      | .error e => .error e
      | .ok (chars, s2) => .ok (String.mk chars, s2)

/-- Value of a base-36 sequence-id digit (`0`-`9`, `A`-`Z`), if any. -/
def seqDigitVal (c : Char) : Option Nat :=
  if c.isDigit then some (c.toNat - 48)
  else if 'A' ≤ c ∧ c ≤ 'Z' then some (10 + c.toNat - 65)
  else none

/-- Numeric value of a base-36 sequence-id digit string. -/
def seqValue (digits : List Char) : Nat :=
  digits.foldl (fun acc c => acc * 36 + (seqDigitVal c).getD 0) 0

/-- Modelled from the spec: a substitution (back-reference) production.  The
compact code `S_` refers to entry 0 and `S<seq-id>_` to entry seq-id + 1; the
code is decoded to a plain index, which must be strictly below the table's
current length, otherwise the reference is rejected with
`InvalidBackReference` (spec §3, §4.2). -/
def parseSubstitution (st : SubstitutionTable) (s : IndexStr) :
    Except Error (Node × SubstitutionTable × IndexStr) :=
  match s.take 1 with
  | .error e => .error e
  | .ok (c0, s1) =>
    if c0 ≠ ['S'] then .error .UnexpectedToken
    else
      let digits := s1.rest.takeWhile (fun c => (seqDigitVal c).isSome)
      let s2 := s1.advance digits.length
      match s2.take 1 with
      | .error e => .error e
      | .ok (c1, s3) =>
        if c1 ≠ ['_'] then .error .UnexpectedToken
        else
          let index := if digits.isEmpty then 0 else seqValue digits + 1
          if index < st.entries.length then .ok (.backRef index, st, s3)
          else .error .InvalidBackReference

/-- Modelled from the spec: the component run of a nested name.  Each time the
accumulated name grows by one component the accumulated name is registered in
the substitution table — substitutable productions register themselves
immediately after being fully parsed (spec §4.3).  The fuel argument is the
remaining input length at entry; every iteration consumes at least one byte,
so the fuel never runs out before the input does. -/
def parsePrefixComponents :
    Nat → SubstitutionTable → IndexStr → List String →
    Except Error (List String × SubstitutionTable × IndexStr)
  | 0, _, _, _ => .error .UnexpectedEnd
  | fuel + 1, st, s, acc =>
    match s.peek with
    | none => .error .UnexpectedEnd
    | some c =>
      if c = 'E' then
        if acc.isEmpty then .error .UnexpectedToken
        else .ok (acc, st, s.advance 1)
      else
        match parseSourceName s with
        | .error e => .error e
        | .ok (ident, s1) =>
          let acc1 := acc ++ [ident]
          parsePrefixComponents fuel (st.insert (.nested acc1)).1 s1 acc1

/-- Modelled from the spec: a nested name `N <components> E`. -/
def parseNestedName (st : SubstitutionTable) (s : IndexStr) :
    Except Error (Node × SubstitutionTable × IndexStr) :=
  match s.take 1 with
  | .error e => .error e
  | .ok (c0, s1) =>
    if c0 ≠ ['N'] then .error .UnexpectedToken
    else
      match parsePrefixComponents s1.rest.length st s1 [] with
      | .error e => .error e
      | .ok (comps, st1, s2) => .ok (.nested comps, st1, s2)

/-- Modelled from the spec: the name production, dispatched on the next byte
in a fixed precedence order (nested name, substitution, unscoped source name,
spec §4.3). -/
def parseName (st : SubstitutionTable) (s : IndexStr) :
    Except Error (Node × SubstitutionTable × IndexStr) :=
  match s.peek with
  | none => .error .UnexpectedEnd
  | some c =>
    if c = 'N' then parseNestedName st s
    else if c = 'S' then parseSubstitution st s
    else if c.isDigit then
      match parseSourceName s with
      | .error e => .error e
      | .ok (ident, s1) => .ok (.sourceName ident, st, s1)
    else .error .UnexpectedToken

/-- Modelled from the spec: the type production with the recursion depth guard
of §4.3: every recursive descent decrements the depth counter and a descent at
depth zero aborts with `RecursionLimitExceeded`.  Wrapper types (pointer,
reference, array) and class-enum types register themselves in the substitution
table once fully parsed; builtins and back-references do not add entries. -/
def parseType :
    Nat → SubstitutionTable → IndexStr →
    Except Error (Node × SubstitutionTable × IndexStr)
  | 0, _, _ => .error .RecursionLimitExceeded
  | depth + 1, st, s =>
    match s.peek with
    | none => .error .UnexpectedEnd
    | some c =>
      if c = 'P' then
        match parseType depth st (s.advance 1) with
        | .error e => .error e
        | .ok (inner, st1, s1) =>
          .ok (.pointerTo inner, (st1.insert (.pointerTo inner)).1, s1)
      else if c = 'R' then
        match parseType depth st (s.advance 1) with
        | .error e => .error e
        | .ok (inner, st1, s1) =>
          .ok (.refTo inner, (st1.insert (.refTo inner)).1, s1)
      else if c = 'A' then
        match parseNumber (s.advance 1) with
        | .error e => .error e
        | .ok (n, s1) =>
          match s1.take 1 with
          | .error e => .error e
          | .ok (c1, s2) =>
            if c1 ≠ ['_'] then .error .UnexpectedToken
            else
              match parseType depth st s2 with
              | .error e => .error e
              | .ok (inner, st1, s3) =>
                .ok (.arrayOf n inner, (st1.insert (.arrayOf n inner)).1, s3)
      else if c = 'S' then parseSubstitution st s
      else
        match BuiltinType.ofChar c with
        | some b => .ok (.builtin b, st, s.advance 1)
        | none =>
          if c = 'N' then parseNestedName st s
          else if c.isDigit then
            match parseSourceName s with
            | .error e => .error e
            | .ok (ident, s1) =>
              .ok (.sourceName ident, (st.insert (.sourceName ident)).1, s1)
          else .error .UnexpectedToken

/-- Modelled from the spec: the greedy parameter-type run of a bare function
type.  A recoverable failure ends the run (pure functional backtracking: the
failed attempt's cursor is discarded, spec §4.3/§9); a fatal failure aborts.
The fuel argument is the remaining input length at entry. -/
def parseTypeList :
    Nat → Nat → SubstitutionTable → IndexStr → List Node →
    Except Error (List Node × SubstitutionTable × IndexStr)
  | 0, _, st, s, acc => .ok (acc, st, s)
  | fuel + 1, depth, st, s, acc =>
    match parseType depth st s with
    | .ok (t, st1, s1) => parseTypeList fuel depth st1 s1 (acc ++ [t])
    | .error e => if e.isFatal then .error e else .ok (acc, st, s)

/-- Modelled from the spec: a bare function type is one or more parameter
types (§4.3); the first type is mandatory and its failure propagates. -/
def parseBareFunctionType (depth : Nat) (st : SubstitutionTable) (s : IndexStr) :
    Except Error (List Node × SubstitutionTable × IndexStr) :=
  match parseType depth st s with
  | .error e => .error e
  | .ok (t, st1, s1) => parseTypeList s1.rest.length depth st1 s1 [t]

/-- Modelled from the spec: the encoding production — a name followed by a
bare function type for functions, a bare name for data.  The data alternative
is taken when no parameter list can be parsed, restoring the pre-attempt
cursor and table (ordered-attempt matching with rollback, spec §9); fatal
errors (depth guard, invalid back-reference) propagate. -/
def parseEncoding (depth : Nat) (st : SubstitutionTable) (s : IndexStr) :
    Except Error (Node × SubstitutionTable × IndexStr) :=
  match parseName st s with
  | .error e => .error e
  | .ok (name, st1, s1) =>
    if s1.isEmpty then .ok (.dataEncoding name, st1, s1)
    else
      match parseBareFunctionType depth st1 s1 with
      | .ok (params, st2, s2) => .ok (.functionEncoding name params, st2, s2)
      | .error e =>
        if e.isFatal then .error e else .ok (.dataEncoding name, st1, s1)

/-- Modelled from the spec: the default maximum recursion depth — an explicit
configuration value, not process-wide state (spec §6, §9). -/
def defaultMaxRecursionDepth : Nat := 96

/-- The root AST production; `lib.rs` stores one of these in every `Symbol`. -/
abbrev MangledName := Node

/-- Modelled from the spec: a mangled name is `_Z` followed by an encoding;
the maximum recursion depth is passed in as configuration (spec §6). -/
def MangledName.parseWithDepth (maxDepth : Nat) (st : SubstitutionTable)
    (s : IndexStr) : Except Error (Node × SubstitutionTable × IndexStr) :=
  match s.take 2 with
  | .error e => .error e
  | .ok (c01, s1) =>
    if c01 ≠ ['_', 'Z'] then .error .UnexpectedToken
    else parseEncoding maxDepth st s1

/-- Modelled from the spec: `ast::MangledName::parse(&mut substitutions,
input)` as called by `lib.rs`, using the default depth configuration. -/
def MangledName.parse (st : SubstitutionTable) (s : IndexStr) :
    Except Error (Node × SubstitutionTable × IndexStr) :=
  MangledName.parseWithDepth defaultMaxRecursionDepth st s

/-- A mangled symbol that has been parsed into an AST (`lib.rs` lines 60-65):
the raw input storage, the substitution table populated by the parse, and the
root AST node. -/
structure Symbol where
  raw : List Char
  substitutions : SubstitutionTable
  parsed : MangledName

/-- `Symbol::new` (`lib.rs` lines 99-130) generalised over the depth
configuration: parse the whole input; if a tail remains after a full grammar
match, fail with the trailing-bytes error (`Error::UnexpectedText` in
`lib.rs`, `UnexpectedTrailingBytes` in the spec). -/
def Symbol.newWithDepth (maxDepth : Nat) (raw : List Char) :
    Except Error Symbol :=
  match MangledName.parseWithDepth maxDepth SubstitutionTable.new
      (IndexStr.new raw) with
  | .error e => .error e
  | .ok (parsed, substitutions, tail) =>
    if tail.isEmpty then
      .ok { raw := raw, substitutions := substitutions, parsed := parsed }
    else .error .UnexpectedTrailingBytes

/-- `Symbol::new` (`lib.rs` lines 99-130): whole-input entry point. -/
def Symbol.new (raw : List Char) : Except Error Symbol :=
  Symbol.newWithDepth defaultMaxRecursionDepth raw

/-- `Symbol::with_tail` (`lib.rs` lines 154-178): parse a symbol and return it
together with the trailing bytes that come after it. -/
def Symbol.with_tail (input : List Char) :
    Except Error (Symbol × List Char) :=
  match MangledName.parse SubstitutionTable.new (IndexStr.new input) with
  | .error e => .error e
  | .ok (parsed, st, cur) =>
    .ok ({ raw := input, substitutions := st, parsed := parsed }, cur.rest)

/-- Modelled from the spec: the transient rendering context of §3 — the
substitution table and the raw input, created fresh per render call
(`ast::DemangleContext::new` in `lib.rs` line 187). -/
structure DemangleContext where
  subs : SubstitutionTable
  raw : List Char

mutual

/-- Modelled from the spec: the demangling renderer of §4.4 for the modelled
fragment.  Back-references are resolved through the substitution table on
demand; the fuel argument is the renderer's cycle guard — a reference chain
long enough to exhaust it signals `FormattingError` instead of looping. -/
def Node.demangle (ctx : DemangleContext) :
    Nat → Node → Except Error String
  | 0, _ => .error .FormattingError
  | fuel + 1, node =>
    match node with
    | .builtin b => .ok b.text
    | .pointerTo t =>
      match Node.demangle ctx fuel t with
      | .error e => .error e
      | .ok inner => .ok (inner ++ "*")
    | .refTo t =>
      match Node.demangle ctx fuel t with
      | .error e => .error e
      | .ok inner => .ok (inner ++ "&")
    | .arrayOf n t =>
      match Node.demangle ctx fuel t with
      | .error e => .error e
      | .ok inner => .ok (inner ++ " [" ++ toString n ++ "]")
    | .backRef i =>
      match ctx.subs.get i with
      | some t => Node.demangle ctx fuel t
      | none => .error .FormattingError
    | .sourceName ident => .ok ident
    | .nested comps => .ok (String.intercalate "::" comps)
    | .functionEncoding name params =>
      match Node.demangle ctx fuel name with
      | .error e => .error e
      | .ok nm =>
        match Node.demangleList ctx fuel params with
        | .error e => .error e
        | .ok ps => .ok (nm ++ "(" ++ String.intercalate ", " ps ++ ")")
    | .dataEncoding name => Node.demangle ctx fuel name

/-- Render a parameter list, left to right (spec §4.4). -/
def Node.demangleList (ctx : DemangleContext) :
    Nat → List Node → Except Error (List String)
  | 0, _ => .error .FormattingError
  | _ + 1, [] => .ok []
  | fuel + 1, p :: rest =>
    match Node.demangle ctx fuel p with
    | .error e => .error e
    | .ok sp =>
      match Node.demangleList ctx fuel rest with
      | .error e => .error e
      | .ok ss => .ok (sp :: ss)

end

mutual

/-- Structural size of an AST node, used to budget the renderer's fuel. -/
def Node.size : Node → Nat
  | .builtin _ => 1
  | .pointerTo t => t.size + 1
  | .refTo t => t.size + 1
  | .arrayOf _ t => t.size + 1
  | .backRef _ => 1
  | .sourceName _ => 1
  | .nested _ => 1
  | .functionEncoding name params => name.size + Node.sizeList params + 1
  | .dataEncoding name => name.size + 1

/-- Structural size of a list of AST nodes. -/
def Node.sizeList : List Node → Nat
  | [] => 0
  | p :: rest => p.size + Node.sizeList rest

end

/-- Renderer fuel budget for one symbol: enough for the tree plus every
back-reference chain the table can produce. -/
def Symbol.displayFuel (s : Symbol) : Nat :=
  s.parsed.size + Node.sizeList s.substitutions.entries +
    s.substitutions.entries.length + 1

/-- The `Display` impl for `Symbol` (`lib.rs` lines 181-194): build a fresh
rendering context over the symbol's table and raw bytes, demangle the stored
AST, and map any demangling error to the opaque formatter error. -/
def Symbol.fmt (s : Symbol) : Except Unit String :=
  match Node.demangle ⟨s.substitutions, s.raw⟩ s.displayFuel s.parsed with
  | .ok out => .ok out
  | .error _ => .error ()

/-- A wrapper type construct of spec §8 scenario 5: a pointer, reference or
array layer around an inner type. -/
inductive WrapperKind
  | pointer
  | reference
  | array
deriving DecidableEq, Repr

/-- The mangled code of one wrapper layer (arrays use the fixed extent 1). -/
def WrapperKind.code : WrapperKind → List Char
  | .pointer => ['P']
  | .reference => ['R']
  | .array => ['A', '1', '_']

/-- The mangled codes of a chain of wrapper layers, outermost first. -/
def wrapperCodes : List WrapperKind → List Char
  | [] => []
  | w :: ws => w.code ++ wrapperCodes ws

/-- The deeply nested wrapper-type chain of spec §8 scenario 5: a function
symbol whose single parameter is the given chain of pointer, reference and
array wrappers around `int`. -/
def wrapperChain (ws : List WrapperKind) : List Char :=
  "_Z1a".toList ++ wrapperCodes ws ++ ['i']

/-- Cursor evolution contract: a parse step never touches the buffer and never
moves the cursor backwards. -/
def CursorOk (a b : IndexStr) : Prop := b.buf = a.buf ∧ a.idx ≤ b.idx

/-- Table evolution contract: a parse step only ever appends entries. -/
def TableOk (a b : SubstitutionTable) : Prop :=
  ∃ ns, b.entries = a.entries ++ ns

/-- The parsed value of `_ZN5space3fooEii`, used to exercise the general
theorems at a concrete input. -/
def symbolII : Symbol :=
  { raw := "_ZN5space3fooEii".toList
    substitutions := ⟨[.nested ["space"], .nested ["space", "foo"]]⟩
    parsed := .functionEncoding (.nested ["space", "foo"])
      [.builtin .int, .builtin .int] }

/-- The parsed value of `_ZN5space3fooEibc and some trailing junk` as returned
by the tail-tolerant entry point. -/
def symbolIBC : Symbol :=
  { raw := "_ZN5space3fooEibc and some trailing junk".toList
    substitutions := ⟨[.nested ["space"], .nested ["space", "foo"]]⟩
    parsed := .functionEncoding (.nested ["space", "foo"])
      [.builtin .int, .builtin .bool, .builtin .char] }

theorem cursorOk_refl (a : IndexStr) : CursorOk a a := ⟨rfl, Nat.le_refl _⟩

theorem cursorOk_trans {a b c : IndexStr} (h1 : CursorOk a b) (h2 : CursorOk b c) :
    CursorOk a c := ⟨h2.1.trans h1.1, h1.2.trans h2.2⟩

theorem tableOk_refl (a : SubstitutionTable) : TableOk a a := ⟨[], by simp⟩

theorem tableOk_trans {a b c : SubstitutionTable} (h1 : TableOk a b) (h2 : TableOk b c) :
    TableOk a c := by
  obtain ⟨n1, e1⟩ := h1
  obtain ⟨n2, e2⟩ := h2
  exact ⟨n1 ++ n2, by rw [e2, e1, List.append_assoc]⟩

theorem tableOk_insert (st : SubstitutionTable) (n : Node) :
    TableOk st (st.insert n).1 := ⟨[n], rfl⟩

theorem cursorOk_advance (s : IndexStr) (n : Nat) : CursorOk s (s.advance n) :=
  ⟨rfl, Nat.le_add_right _ _⟩

theorem take_ok {s : IndexStr} {n : Nat} {chars : List Char} {s1 : IndexStr}
    (h : s.take n = .ok (chars, s1)) : CursorOk s s1 := by
  unfold IndexStr.take at h
  split at h
  · injection h with h'
    cases h'
    exact cursorOk_advance s n
  · cases h

theorem take_err {s : IndexStr} {n : Nat} {e : Error}
    (h : s.take n = .error e) : e = .UnexpectedEnd := by
  unfold IndexStr.take at h
  split at h
  · cases h
  · injection h with h'
    exact h'.symm

theorem parseNumber_ok {s : IndexStr} {n : Nat} {s1 : IndexStr}
    (h : parseNumber s = .ok (n, s1)) : CursorOk s s1 := by
  unfold parseNumber at h
  dsimp only at h
  split at h
  · cases h
  · split at h
    · cases h
    · injection h with h'
      cases h'
      exact cursorOk_advance s _

theorem parseNumber_err {s : IndexStr} {e : Error}
    (h : parseNumber s = .error e) : e = .UnexpectedToken := by
  unfold parseNumber at h
  dsimp only at h
  split at h
  · injection h with h'
    exact h'.symm
  · split at h
    · injection h with h'
      exact h'.symm
    · cases h

theorem parseSourceName_ok {s : IndexStr} {ident : String} {s1 : IndexStr}
    (h : parseSourceName s = .ok (ident, s1)) : CursorOk s s1 := by
  unfold parseSourceName at h
  split at h
  · cases h
  case _ n s2 heq =>
    split at h
    · cases h
    · split at h
      · cases h
      case _ chars s3 heq2 =>
        injection h with h'
        cases h'
        exact cursorOk_trans (parseNumber_ok heq) (take_ok heq2)

theorem parseSourceName_err {s : IndexStr} {e : Error}
    (h : parseSourceName s = .error e) :
    e = .UnexpectedToken ∨ e = .UnexpectedEnd := by
  unfold parseSourceName at h
  split at h
  case _ e2 heq =>
    injection h with h'
    cases h'
    exact .inl (parseNumber_err heq)
  case _ n s2 heq =>
    split at h
    · injection h with h'
      exact .inl h'.symm
    · split at h
      case _ e2 heq2 =>
        injection h with h'
        cases h'
        exact .inr (take_err heq2)
      · cases h

theorem parseSubstitution_ok {st : SubstitutionTable} {s : IndexStr}
    {node : Node} {st1 : SubstitutionTable} {s1 : IndexStr}
    (h : parseSubstitution st s = .ok (node, st1, s1)) :
    st1 = st ∧ CursorOk s s1 ∧
      ∃ i, node = .backRef i ∧ i < st.entries.length := by
  unfold parseSubstitution at h
  split at h
  · cases h
  case _ c0 s2 heq =>
    split at h
    · cases h
    · dsimp only at h
      split at h
      · cases h
      case _ c1 s3 heq2 =>
        split at h
        · cases h
        · have hcur : CursorOk s s3 :=
            cursorOk_trans (take_ok heq)
              (cursorOk_trans (cursorOk_advance _ _) (take_ok heq2))
          split at h <;> split at h
          case _ hlt =>
            injection h with h2
            cases h2
            exact ⟨rfl, hcur, _, rfl, hlt⟩
          · cases h
          case _ hlt =>
            injection h with h2
            cases h2
            exact ⟨rfl, hcur, _, rfl, hlt⟩
          · cases h

theorem parseSubstitution_err {st : SubstitutionTable} {s : IndexStr} {e : Error}
    (h : parseSubstitution st s = .error e) : e ≠ .UnexpectedTrailingBytes := by
  unfold parseSubstitution at h
  split at h
  case _ e2 heq =>
    injection h with h2
    cases h2
    rw [take_err heq]
    intro hc
    cases hc
  case _ c0 s2 heq =>
    split at h
    · injection h with h2
      cases h2.symm
      intro hc
      cases hc
    · dsimp only at h
      split at h
      case _ e2 heq2 =>
        injection h with h2
        cases h2
        rw [take_err heq2]
        intro hc
        cases hc
      case _ c1 s3 heq2 =>
        split at h
        · injection h with h2
          cases h2.symm
          intro hc
          cases hc
        · split at h <;> split at h
          · cases h
          · injection h with h2
            cases h2.symm
            intro hc
            cases hc
          · cases h
          · injection h with h2
            cases h2.symm
            intro hc
            cases hc


theorem parsePrefixComponents_ok :
    ∀ (fuel : Nat) (st : SubstitutionTable) (s : IndexStr) (acc : List String)
    {comps : List String} {st1 : SubstitutionTable} {s1 : IndexStr},
    parsePrefixComponents fuel st s acc = .ok (comps, st1, s1) →
    TableOk st st1 ∧ CursorOk s s1 := by
  intro fuel
  induction fuel with
  | zero => intro st s acc comps st1 s1 h; cases h
  | succ f ih =>
    intro st s acc comps st1 s1 h
    unfold parsePrefixComponents at h
    split at h
    · cases h
    case _ c =>
      split at h
      · split at h
        · cases h
        · injection h with h2
          cases h2
          exact ⟨tableOk_refl _, cursorOk_advance _ _⟩
      · split at h
        · cases h
        case _ ident s2 heq =>
          dsimp only at h
          have := ih _ s2 _ h
          exact ⟨tableOk_trans (tableOk_insert st _) this.1,
            cursorOk_trans (parseSourceName_ok heq) this.2⟩

theorem parsePrefixComponents_err :
    ∀ (fuel : Nat) (st : SubstitutionTable) (s : IndexStr) (acc : List String)
    {e : Error}, parsePrefixComponents fuel st s acc = .error e →
    e ≠ .UnexpectedTrailingBytes := by
  intro fuel
  induction fuel with
  | zero =>
    intro st s acc e h
    injection h with h2
    cases h2.symm
    intro hc
    cases hc
  | succ f ih =>
    intro st s acc e h
    unfold parsePrefixComponents at h
    split at h
    · injection h with h2
      cases h2.symm
      intro hc
      cases hc
    case _ c =>
      split at h
      · split at h
        · injection h with h2
          cases h2.symm
          intro hc
          cases hc
        · cases h
      · split at h
        case _ e2 heq =>
          injection h with h2
          cases h2
          intro hc
          cases parseSourceName_err heq with
          | inl h3 => cases hc ▸ h3
          | inr h3 => cases hc ▸ h3
        case _ ident s2 heq =>
          dsimp only at h
          exact ih _ s2 _ h

theorem parseNestedName_ok {st : SubstitutionTable} {s : IndexStr}
    {node : Node} {st1 : SubstitutionTable} {s1 : IndexStr}
    (h : parseNestedName st s = .ok (node, st1, s1)) :
    TableOk st st1 ∧ CursorOk s s1 := by
  unfold parseNestedName at h
  split at h
  · cases h
  case _ c0 s2 heq =>
    split at h
    · cases h
    · split at h
      · cases h
      case _ comps st2 s3 heq2 =>
        injection h with h2
        cases h2
        have := parsePrefixComponents_ok _ _ _ _ heq2
        exact ⟨this.1, cursorOk_trans (take_ok heq) this.2⟩

theorem parseNestedName_err {st : SubstitutionTable} {s : IndexStr} {e : Error}
    (h : parseNestedName st s = .error e) : e ≠ .UnexpectedTrailingBytes := by
  unfold parseNestedName at h
  split at h
  case _ e2 heq =>
    injection h with h2
    cases h2
    rw [take_err heq]
    intro hc
    cases hc
  case _ c0 s2 heq =>
    split at h
    · injection h with h2
      cases h2.symm
      intro hc
      cases hc
    · split at h
      case _ e2 heq2 =>
        injection h with h2
        cases h2
        exact parsePrefixComponents_err _ _ _ _ heq2
      · cases h

theorem parseName_ok {st : SubstitutionTable} {s : IndexStr}
    {node : Node} {st1 : SubstitutionTable} {s1 : IndexStr}
    (h : parseName st s = .ok (node, st1, s1)) :
    TableOk st st1 ∧ CursorOk s s1 := by
  unfold parseName at h
  split at h
  · cases h
  case _ c =>
    split at h
    · exact parseNestedName_ok h
    · split at h
      · have := parseSubstitution_ok h
        exact ⟨this.1 ▸ tableOk_refl _, this.2.1⟩
      · split at h
        · split at h
          · cases h
          case _ ident s2 heq =>
            injection h with h2
            cases h2
            exact ⟨tableOk_refl _, parseSourceName_ok heq⟩
        · cases h

theorem parseName_err {st : SubstitutionTable} {s : IndexStr} {e : Error}
    (h : parseName st s = .error e) : e ≠ .UnexpectedTrailingBytes := by
  unfold parseName at h
  split at h
  · injection h with h2
    cases h2.symm
    intro hc
    cases hc
  case _ c =>
    split at h
    · exact parseNestedName_err h
    · split at h
      · exact parseSubstitution_err h
      · split at h
        · split at h
          case _ e2 heq =>
            injection h with h2
            cases h2
            intro hc
            cases parseSourceName_err heq with
            | inl h3 => cases hc ▸ h3
            | inr h3 => cases hc ▸ h3
          · cases h
        · injection h with h2
          cases h2.symm
          intro hc
          cases hc


theorem parseType_ok :
    ∀ (depth : Nat) (st : SubstitutionTable) (s : IndexStr)
    {t : Node} {st1 : SubstitutionTable} {s1 : IndexStr},
    parseType depth st s = .ok (t, st1, s1) →
    TableOk st st1 ∧ CursorOk s s1 := by
  intro depth
  induction depth with
  | zero => intro st s t st1 s1 h; cases h
  | succ d ih =>
    intro st s t st1 s1 h
    unfold parseType at h
    split at h
    · cases h
    case _ c =>
      split at h
      · -- pointer
        split at h
        · cases h
        case _ inner st2 s2 heq =>
          injection h with h2
          cases h2
          have := ih st (s.advance 1) heq
          exact ⟨tableOk_trans this.1 (tableOk_insert _ _),
            cursorOk_trans (cursorOk_advance _ _) this.2⟩
      · split at h
        · -- reference
          split at h
          · cases h
          case _ inner st2 s2 heq =>
            injection h with h2
            cases h2
            have := ih st (s.advance 1) heq
            exact ⟨tableOk_trans this.1 (tableOk_insert _ _),
              cursorOk_trans (cursorOk_advance _ _) this.2⟩
        · split at h
          · -- array
            split at h
            · cases h
            case _ n s2 heq =>
              split at h
              · cases h
              case _ c1 s3 heq2 =>
                split at h
                · cases h
                · split at h
                  · cases h
                  case _ inner st2 s4 heq3 =>
                    injection h with h2
                    cases h2
                    have := ih st s3 heq3
                    refine ⟨tableOk_trans this.1 (tableOk_insert _ _), ?_⟩
                    exact cursorOk_trans (cursorOk_advance _ _)
                      (cursorOk_trans (parseNumber_ok heq)
                        (cursorOk_trans (take_ok heq2) this.2))
          · split at h
            · -- substitution
              have := parseSubstitution_ok h
              exact ⟨this.1 ▸ tableOk_refl _, this.2.1⟩
            · split at h
              · -- builtin
                injection h with h2
                cases h2
                exact ⟨tableOk_refl _, cursorOk_advance _ _⟩
              · split at h
                · -- class-enum nested name
                  exact parseNestedName_ok h
                · split at h
                  · -- class-enum source name
                    split at h
                    · cases h
                    case _ ident s2 heq =>
                      injection h with h2
                      cases h2
                      exact ⟨tableOk_insert _ _, parseSourceName_ok heq⟩
                  · cases h

theorem parseType_err :
    ∀ (depth : Nat) (st : SubstitutionTable) (s : IndexStr) {e : Error},
    parseType depth st s = .error e → e ≠ .UnexpectedTrailingBytes := by
  intro depth
  induction depth with
  | zero =>
    intro st s e h
    injection h with h2
    cases h2.symm
    intro hc
    cases hc
  | succ d ih =>
    intro st s e h
    unfold parseType at h
    split at h
    · injection h with h2
      cases h2.symm
      intro hc
      cases hc
    case _ c =>
      split at h
      · split at h
        case _ e2 heq =>
          injection h with h2
          cases h2
          exact ih st (s.advance 1) heq
        · cases h
      · split at h
        · split at h
          case _ e2 heq =>
            injection h with h2
            cases h2
            exact ih st (s.advance 1) heq
          · cases h
        · split at h
          · split at h
            case _ e2 heq =>
              injection h with h2
              cases h2
              rw [parseNumber_err heq]
              intro hc
              cases hc
            case _ n s2 heq =>
              split at h
              case _ e2 heq2 =>
                injection h with h2
                cases h2
                rw [take_err heq2]
                intro hc
                cases hc
              case _ c1 s3 heq2 =>
                split at h
                · injection h with h2
                  cases h2.symm
                  intro hc
                  cases hc
                · split at h
                  case _ e2 heq3 =>
                    injection h with h2
                    cases h2
                    exact ih st s3 heq3
                  · cases h
          · split at h
            · exact parseSubstitution_err h
            · split at h
              · cases h
              · split at h
                · exact parseNestedName_err h
                · split at h
                  · split at h
                    case _ e2 heq =>
                      injection h with h2
                      cases h2
                      intro hc
                      cases parseSourceName_err heq with
                      | inl h3 => cases hc ▸ h3
                      | inr h3 => cases hc ▸ h3
                    · cases h
                  · injection h with h2
                    cases h2.symm
                    intro hc
                    cases hc

theorem parseTypeList_ok :
    ∀ (fuel depth : Nat) (st : SubstitutionTable) (s : IndexStr) (acc : List Node)
    {ts : List Node} {st1 : SubstitutionTable} {s1 : IndexStr},
    parseTypeList fuel depth st s acc = .ok (ts, st1, s1) →
    TableOk st st1 ∧ CursorOk s s1 := by
  intro fuel
  induction fuel with
  | zero =>
    intro depth st s acc ts st1 s1 h
    injection h with h2
    cases h2
    exact ⟨tableOk_refl _, cursorOk_refl _⟩
  | succ f ih =>
    intro depth st s acc ts st1 s1 h
    unfold parseTypeList at h
    split at h
    case _ t st2 s2 heq =>
      have h1 := parseType_ok _ _ _ heq
      have h2 := ih _ _ s2 _ h
      exact ⟨tableOk_trans h1.1 h2.1, cursorOk_trans h1.2 h2.2⟩
    case _ e heq =>
      split at h
      · cases h
      · injection h with h2
        cases h2
        exact ⟨tableOk_refl _, cursorOk_refl _⟩

theorem parseTypeList_err :
    ∀ (fuel depth : Nat) (st : SubstitutionTable) (s : IndexStr) (acc : List Node)
    {e : Error}, parseTypeList fuel depth st s acc = .error e →
    e ≠ .UnexpectedTrailingBytes := by
  intro fuel
  induction fuel with
  | zero => intro depth st s acc e h; cases h
  | succ f ih =>
    intro depth st s acc e h
    unfold parseTypeList at h
    split at h
    case _ t st2 s2 heq => exact ih _ _ s2 _ h
    case _ e2 heq =>
      split at h
      · injection h with h2
        cases h2
        exact parseType_err _ _ _ heq
      · cases h

theorem parseBareFunctionType_ok {depth : Nat} {st : SubstitutionTable}
    {s : IndexStr} {ts : List Node} {st1 : SubstitutionTable} {s1 : IndexStr}
    (h : parseBareFunctionType depth st s = .ok (ts, st1, s1)) :
    TableOk st st1 ∧ CursorOk s s1 := by
  unfold parseBareFunctionType at h
  split at h
  · cases h
  case _ t st2 s2 heq =>
    have h1 := parseType_ok _ _ _ heq
    have h2 := parseTypeList_ok _ _ _ _ _ h
    exact ⟨tableOk_trans h1.1 h2.1, cursorOk_trans h1.2 h2.2⟩

theorem parseBareFunctionType_err {depth : Nat} {st : SubstitutionTable}
    {s : IndexStr} {e : Error}
    (h : parseBareFunctionType depth st s = .error e) :
    e ≠ .UnexpectedTrailingBytes := by
  unfold parseBareFunctionType at h
  split at h
  case _ e2 heq =>
    injection h with h2
    cases h2
    exact parseType_err _ _ _ heq
  case _ t st2 s2 heq => exact parseTypeList_err _ _ _ _ _ h

theorem parseEncoding_ok {depth : Nat} {st : SubstitutionTable} {s : IndexStr}
    {node : Node} {st1 : SubstitutionTable} {s1 : IndexStr}
    (h : parseEncoding depth st s = .ok (node, st1, s1)) :
    TableOk st st1 ∧ CursorOk s s1 := by
  unfold parseEncoding at h
  split at h
  · cases h
  case _ name st2 s2 heq =>
    have h1 := parseName_ok heq
    split at h
    · injection h with h2
      cases h2
      exact h1
    · split at h
      case _ params st3 s3 heq2 =>
        injection h with h2
        cases h2
        have h2 := parseBareFunctionType_ok heq2
        exact ⟨tableOk_trans h1.1 h2.1, cursorOk_trans h1.2 h2.2⟩
      case _ e2 heq2 =>
        split at h
        · cases h
        · injection h with h2
          cases h2
          exact h1

theorem parseEncoding_err {depth : Nat} {st : SubstitutionTable} {s : IndexStr}
    {e : Error} (h : parseEncoding depth st s = .error e) :
    e ≠ .UnexpectedTrailingBytes := by
  unfold parseEncoding at h
  split at h
  case _ e2 heq =>
    injection h with h2
    cases h2
    exact parseName_err heq
  case _ name st2 s2 heq =>
    split at h
    · cases h
    · split at h
      · cases h
      case _ e2 heq2 =>
        split at h
        · injection h with h2
          cases h2
          exact parseBareFunctionType_err heq2
        · cases h

theorem parseWithDepth_ok {maxDepth : Nat} {st : SubstitutionTable}
    {s : IndexStr} {node : Node} {st1 : SubstitutionTable} {s1 : IndexStr}
    (h : MangledName.parseWithDepth maxDepth st s = .ok (node, st1, s1)) :
    TableOk st st1 ∧ CursorOk s s1 := by
  unfold MangledName.parseWithDepth at h
  split at h
  · cases h
  case _ c01 s2 heq =>
    split at h
    · cases h
    · have h1 := parseEncoding_ok h
      exact ⟨h1.1, cursorOk_trans (take_ok heq) h1.2⟩

theorem parseWithDepth_err {maxDepth : Nat} {st : SubstitutionTable}
    {s : IndexStr} {e : Error}
    (h : MangledName.parseWithDepth maxDepth st s = .error e) :
    e ≠ .UnexpectedTrailingBytes := by
  unfold MangledName.parseWithDepth at h
  split at h
  case _ e2 heq =>
    injection h with h2
    cases h2
    rw [take_err heq]
    intro hc
    cases hc
  case _ c01 s2 heq =>
    split at h
    · injection h with h2
      cases h2.symm
      intro hc
      cases hc
    · exact parseEncoding_err h


/-- C1: parsing `_ZN5space3fooEii` with the whole-input entry point
`Symbol::new` succeeds and the symbol renders to `space::foo(int, int)`;
parsing `_ZN5space3fooEibc` succeeds and renders to
`space::foo(int, bool, char)`. -/
theorem spec_c1_demangle_examples :
    (Symbol.new "_ZN5space3fooEii".toList).map Symbol.fmt
        = .ok (.ok "space::foo(int, int)") ∧
    (Symbol.new "_ZN5space3fooEibc".toList).map Symbol.fmt
        = .ok (.ok "space::foo(int, bool, char)") :=
  ⟨rfl, rfl⟩

/-- C2: for every input, the whole-input entry point `Symbol::new` succeeds
with a given symbol exactly when the tail-tolerant `Symbol::with_tail`
succeeds with that same symbol (same AST, same substitution table, same raw
bytes) and an empty remaining tail. -/
theorem spec_c2_new_iff_with_tail_empty (input : List Char) (s : Symbol) :
    Symbol.new input = .ok s ↔ Symbol.with_tail input = .ok (s, []) := by
  unfold Symbol.new Symbol.newWithDepth Symbol.with_tail MangledName.parse
  cases h : MangledName.parseWithDepth defaultMaxRecursionDepth
      SubstitutionTable.new (IndexStr.new input) with
  | error e => constructor <;> (intro hc; cases hc)
  | ok r =>
    obtain ⟨p, st, cur⟩ := r
    dsimp only
    by_cases hEmpty : cur.rest = []
    · simp [IndexStr.isEmpty, hEmpty]
    · simp [IndexStr.isEmpty, hEmpty]

/-- C3: whenever the grammar fully matches a proper prefix of the input and
leaves unconsumed bytes, `Symbol::new` fails with the trailing-bytes error
kind, and that error kind is never produced by the tail-tolerant entry point
`Symbol::with_tail`. -/
theorem spec_c3_trailing_bytes_error_source :
    (∀ (input : List Char) (p : Node) (st : SubstitutionTable) (cur : IndexStr),
      MangledName.parse SubstitutionTable.new (IndexStr.new input)
          = .ok (p, st, cur) →
      cur.isEmpty = false →
      Symbol.new input = .error .UnexpectedTrailingBytes) ∧
    (∀ (input : List Char) (e : Error),
      Symbol.with_tail input = .error e → e ≠ .UnexpectedTrailingBytes) := by
  constructor
  · intro input p st cur h hne
    unfold MangledName.parse at h
    unfold Symbol.new Symbol.newWithDepth
    rw [h]
    simp [hne]
  · intro input e h
    unfold Symbol.with_tail MangledName.parse at h
    split at h
    case _ e2 heq =>
      injection h with h2
      cases h2
      exact parseWithDepth_err heq
    · cases h

/-- Witness for C3: on `_ZN5space3fooEibc and some trailing junk` the grammar
matches a proper prefix, and `Symbol::new` indeed reports the trailing-bytes
error. -/
theorem spec_c3_trailing_bytes_error_source_witness :
    Symbol.new "_ZN5space3fooEibc and some trailing junk".toList
      = .error .UnexpectedTrailingBytes :=
  spec_c3_trailing_bytes_error_source.1
    "_ZN5space3fooEibc and some trailing junk".toList
    (.functionEncoding (.nested ["space", "foo"])
      [.builtin .int, .builtin .bool, .builtin .char])
    ⟨[.nested ["space"], .nested ["space", "foo"]]⟩
    ⟨"_ZN5space3fooEibc and some trailing junk".toList, 17⟩
    rfl rfl

/-- C4: on `_ZN5space3fooEibc and some trailing junk`, the tail-tolerant
entry point succeeds, its symbol renders to `space::foo(int, bool, char)` and
its tail is ` and some trailing junk`, while the whole-input entry point
fails with the trailing-bytes error. -/
theorem spec_c4_tail_tolerant_example :
    (Symbol.with_tail "_ZN5space3fooEibc and some trailing junk".toList).map
        (fun p => (p.1.fmt, p.2))
      = .ok (.ok "space::foo(int, bool, char)",
             " and some trailing junk".toList) ∧
    Symbol.new "_ZN5space3fooEibc and some trailing junk".toList
      = .error .UnexpectedTrailingBytes :=
  ⟨rfl, rfl⟩

/-- C5: parsing the two bytes `_Z` fails with exactly the `UnexpectedEnd`
error kind (input exhausted mid-production). -/
theorem spec_c5_truncated_input_unexpected_end :
    Symbol.new "_Z".toList = .error .UnexpectedEnd := rfl

/-- C7: a substitution production only ever resolves to an index strictly
below the substitution table's current length, an out-of-range back-reference
code is rejected with `InvalidBackReference`, and a full parse only appends
to the table, so any earlier lookup returns the same node afterwards. -/
theorem spec_c7_backreference_invariants :
    (∀ (st : SubstitutionTable) (s : IndexStr) (node : Node)
        (st1 : SubstitutionTable) (s1 : IndexStr),
      parseSubstitution st s = .ok (node, st1, s1) →
      ∃ i, node = .backRef i ∧ i < st.entries.length) ∧
    Symbol.new "_Z1fS_".toList = .error .InvalidBackReference ∧
    (∀ (maxDepth : Nat) (st : SubstitutionTable) (s : IndexStr) (node : Node)
        (st1 : SubstitutionTable) (s1 : IndexStr),
      MangledName.parseWithDepth maxDepth st s = .ok (node, st1, s1) →
      (∃ ns, st1.entries = st.entries ++ ns) ∧
      ∀ i, i < st.entries.length → st1.get i = st.get i) := by
  refine ⟨?_, rfl, ?_⟩
  · intro st s node st1 s1 h
    exact (parseSubstitution_ok h).2.2
  · intro maxDepth st s node st1 s1 h
    obtain ⟨ns, hns⟩ := (parseWithDepth_ok h).1
    refine ⟨⟨ns, hns⟩, ?_⟩
    intro i hi
    unfold SubstitutionTable.get
    rw [hns]
    exact List.getElem?_append_left hi

/-- Witness for C7: a back-reference `S_` against a one-entry table resolves
to index 0, below the table length; and a full parse of `_ZN5space3fooEii`
starting from the empty table only appends entries. -/
theorem spec_c7_backreference_invariants_witness :
    (∃ i, Node.backRef 0 = Node.backRef i ∧
      i < (⟨[Node.sourceName "x"]⟩ : SubstitutionTable).entries.length) ∧
    (∃ ns, symbolII.substitutions.entries
        = SubstitutionTable.new.entries ++ ns) :=
  ⟨spec_c7_backreference_invariants.1 ⟨[Node.sourceName "x"]⟩
      ⟨"S_".toList, 0⟩ (Node.backRef 0) ⟨[Node.sourceName "x"]⟩
      ⟨"S_".toList, 2⟩ rfl,
    ((spec_c7_backreference_invariants.2.2 defaultMaxRecursionDepth
      SubstitutionTable.new (IndexStr.new "_ZN5space3fooEii".toList)
      symbolII.parsed symbolII.substitutions
      ⟨"_ZN5space3fooEii".toList, 16⟩ rfl).1)⟩

/-- C8: rendering a parsed symbol is a pure function of its stored raw bytes,
substitution table and AST — two renders of symbols with identical stored
state produce identical text, so repeated rendering of one symbol is
idempotent and leaves it unchanged. -/
theorem spec_c8_render_deterministic (s t : Symbol) (h1 : s.raw = t.raw)
    (h2 : s.substitutions = t.substitutions) (h3 : s.parsed = t.parsed) :
    s.fmt = t.fmt := by
  obtain ⟨r, su, p⟩ := s
  obtain ⟨r2, su2, p2⟩ := t
  cases h1
  cases h2
  cases h3
  rfl

/-- Witness for C8: rendering the parsed `_ZN5space3fooEii` twice yields the
same text. -/
theorem spec_c8_render_deterministic_witness : symbolII.fmt = symbolII.fmt :=
  spec_c8_render_deterministic symbolII symbolII rfl rfl rfl

/-- C9: parsing is deterministic — two runs of `Symbol::new` on the same
bytes that both succeed yield equal symbols, in particular structurally
identical ASTs and substitution tables. -/
theorem spec_c9_parse_deterministic (input : List Char) (s1 s2 : Symbol)
    (h1 : Symbol.new input = .ok s1) (h2 : Symbol.new input = .ok s2) :
    s1 = s2 ∧ s1.parsed = s2.parsed ∧ s1.substitutions = s2.substitutions := by
  rw [h1] at h2
  injection h2 with h3
  exact ⟨h3, by rw [h3], by rw [h3]⟩

/-- Witness for C9: two parses of `_ZN5space3fooEii` agree. -/
theorem spec_c9_parse_deterministic_witness :
    symbolII = symbolII ∧ symbolII.parsed = symbolII.parsed ∧
      symbolII.substitutions = symbolII.substitutions :=
  spec_c9_parse_deterministic "_ZN5space3fooEii".toList symbolII symbolII
    rfl rfl

/-- C10: whenever `Symbol::with_tail` succeeds, the returned tail is a suffix
of the input (the input is the consumed bytes followed by the tail) and the
symbol stores the entire original input as its raw bytes. -/
theorem spec_c10_tail_is_suffix (input : List Char) (s : Symbol)
    (tail : List Char) (h : Symbol.with_tail input = .ok (s, tail)) :
    (∃ consumed, input = consumed ++ tail) ∧ s.raw = input := by
  unfold Symbol.with_tail MangledName.parse at h
  split at h
  · cases h
  case _ p st cur heq =>
    injection h with h2
    cases h2
    have hc := (parseWithDepth_ok heq).2
    refine ⟨⟨input.take cur.idx, ?_⟩, rfl⟩
    unfold IndexStr.rest
    rw [hc.1]
    exact (List.take_append_drop _ _).symm

/-- Witness for C10: on `_ZN5space3fooEibc and some trailing junk` the input
decomposes into consumed bytes plus the returned tail, and the symbol keeps
the whole input. -/
theorem spec_c10_tail_is_suffix_witness :
    (∃ consumed, "_ZN5space3fooEibc and some trailing junk".toList
        = consumed ++ " and some trailing junk".toList) ∧
    symbolIBC.raw = "_ZN5space3fooEibc and some trailing junk".toList :=
  spec_c10_tail_is_suffix "_ZN5space3fooEibc and some trailing junk".toList
    symbolIBC " and some trailing junk".toList rfl

theorem wrapperChain_length (ws : List WrapperKind) :
    (wrapperChain ws).length = 5 + (wrapperCodes ws).length := by
  simp [wrapperChain]
  omega

theorem wrapperChain_drop4 (ws : List WrapperKind) :
    (wrapperChain ws).drop 4 = wrapperCodes ws ++ ['i'] := rfl

theorem parseType_wrapperChain :
    ∀ (ws : List WrapperKind) (d : Nat) (st : SubstitutionTable)
      (buf : List Char) (idx : Nat),
    d ≤ ws.length → buf.drop idx = wrapperCodes ws ++ ['i'] →
    parseType d st ⟨buf, idx⟩ = .error .RecursionLimitExceeded := by
  intro ws
  induction ws with
  | nil =>
    intro d st buf idx hd _
    cases Nat.le_zero.mp hd
    rfl
  | cons w ws ih =>
    intro d st buf idx hd hdrop
    cases d with
    | zero => rfl
    | succ d =>
      have hd2 : d ≤ ws.length := Nat.le_of_succ_le_succ hd
      cases w with
      | pointer =>
        have hdropP : buf.drop idx = 'P' :: (wrapperCodes ws ++ ['i']) := hdrop
        have hpeek : IndexStr.peek ⟨buf, idx⟩ = some 'P' := by
          unfold IndexStr.peek IndexStr.rest
          dsimp only
          rw [hdropP]
          rfl
        have hdrop1 : buf.drop (idx + 1) = wrapperCodes ws ++ ['i'] := by
          have h1 : buf.drop (idx + 1) = (buf.drop idx).drop 1 := by
            rw [List.drop_drop]
          rw [h1, hdropP]
          rfl
        have hrec := ih d st buf (idx + 1) hd2 hdrop1
        unfold parseType
        rw [hpeek]
        dsimp only
        rw [if_pos rfl]
        have hadv : (IndexStr.advance ⟨buf, idx⟩ 1) = ⟨buf, idx + 1⟩ := rfl
        rw [hadv, hrec]
      | reference =>
        have hdropR : buf.drop idx = 'R' :: (wrapperCodes ws ++ ['i']) := hdrop
        have hpeek : IndexStr.peek ⟨buf, idx⟩ = some 'R' := by
          unfold IndexStr.peek IndexStr.rest
          dsimp only
          rw [hdropR]
          rfl
        have hdrop1 : buf.drop (idx + 1) = wrapperCodes ws ++ ['i'] := by
          have h1 : buf.drop (idx + 1) = (buf.drop idx).drop 1 := by
            rw [List.drop_drop]
          rw [h1, hdropR]
          rfl
        have hrec := ih d st buf (idx + 1) hd2 hdrop1
        unfold parseType
        rw [hpeek]
        dsimp only
        rw [if_neg (by decide), if_pos rfl]
        have hadv : (IndexStr.advance ⟨buf, idx⟩ 1) = ⟨buf, idx + 1⟩ := rfl
        rw [hadv, hrec]
      | array =>
        have hdropA : buf.drop idx
            = 'A' :: '1' :: '_' :: (wrapperCodes ws ++ ['i']) := hdrop
        have hlen3 : idx + 3 ≤ buf.length := by
          have h1 : (buf.drop idx).length = buf.length - idx :=
            List.length_drop idx buf
          rw [hdropA] at h1
          simp at h1
          omega
        have hpeek : IndexStr.peek ⟨buf, idx⟩ = some 'A' := by
          unfold IndexStr.peek IndexStr.rest
          dsimp only
          rw [hdropA]
          rfl
        have hdrop1 : buf.drop (idx + 1)
            = '1' :: '_' :: (wrapperCodes ws ++ ['i']) := by
          have h1 : buf.drop (idx + 1) = (buf.drop idx).drop 1 := by
            rw [List.drop_drop]
          rw [h1, hdropA]
          rfl
        have hdrop2 : buf.drop (idx + 2) = '_' :: (wrapperCodes ws ++ ['i']) := by
          have h1 : buf.drop (idx + 2) = (buf.drop (idx + 1)).drop 1 := by
            rw [List.drop_drop]
          rw [h1, hdrop1]
          rfl
        have hdrop3 : buf.drop (idx + 3) = wrapperCodes ws ++ ['i'] := by
          have h1 : buf.drop (idx + 3) = (buf.drop (idx + 2)).drop 1 := by
            rw [List.drop_drop]
          rw [h1, hdrop2]
          rfl
        have hnum : parseNumber ⟨buf, idx + 1⟩ = .ok (1, ⟨buf, idx + 2⟩) := by
          unfold parseNumber IndexStr.rest
          dsimp only
          rw [hdrop1]
          rfl
        have htake1 : (⟨buf, idx + 2⟩ : IndexStr).take 1
            = .ok (['_'], ⟨buf, idx + 3⟩) := by
          unfold IndexStr.take
          rw [if_pos (show idx + 2 + 1 ≤ buf.length by omega)]
          unfold IndexStr.rest IndexStr.advance
          dsimp only
          rw [hdrop2]
          rfl
        have hrec := ih d st buf (idx + 3) hd2 hdrop3
        unfold parseType
        rw [hpeek]
        dsimp only
        rw [if_neg (by decide), if_neg (by decide), if_pos rfl]
        have hadv : (IndexStr.advance ⟨buf, idx⟩ 1) = ⟨buf, idx + 1⟩ := rfl
        rw [hadv, hnum]
        dsimp only
        rw [htake1]
        dsimp only
        rw [if_neg (by decide)]
        rw [hrec]

theorem newWithDepth_wrapperChain (maxDepth : Nat) (ws : List WrapperKind)
    (h : maxDepth ≤ ws.length) :
    Symbol.newWithDepth maxDepth (wrapperChain ws)
      = .error .RecursionLimitExceeded := by
  have hlen := wrapperChain_length ws
  have htake2 : (IndexStr.new (wrapperChain ws)).take 2
      = .ok (['_', 'Z'], ⟨wrapperChain ws, 2⟩) := by
    unfold IndexStr.take
    rw [if_pos (by show 0 + 2 ≤ (wrapperChain ws).length; omega)]
    rfl
  have hpeek2 : IndexStr.peek ⟨wrapperChain ws, 2⟩ = some '1' := rfl
  have hnum : parseNumber ⟨wrapperChain ws, 2⟩
      = .ok (1, ⟨wrapperChain ws, 3⟩) := rfl
  have htake1 : (⟨wrapperChain ws, 3⟩ : IndexStr).take 1
      = .ok (['a'], ⟨wrapperChain ws, 4⟩) := by
    unfold IndexStr.take
    rw [if_pos (by show 3 + 1 ≤ (wrapperChain ws).length; omega)]
    rfl
  have hsrc : parseSourceName ⟨wrapperChain ws, 2⟩
      = .ok ("a", ⟨wrapperChain ws, 4⟩) := by
    unfold parseSourceName
    rw [hnum]
    dsimp only
    rw [if_neg (by decide), htake1]
  have hname : ∀ st, parseName st ⟨wrapperChain ws, 2⟩
      = .ok (.sourceName "a", st, ⟨wrapperChain ws, 4⟩) := by
    intro st
    unfold parseName
    rw [hpeek2]
    dsimp only
    rw [if_neg (by decide), if_neg (by decide), if_pos (by decide), hsrc]
  have hbare : ∀ st, parseBareFunctionType maxDepth st ⟨wrapperChain ws, 4⟩
      = .error .RecursionLimitExceeded := by
    intro st
    unfold parseBareFunctionType
    rw [parseType_wrapperChain ws maxDepth st (wrapperChain ws) 4 h
      (wrapperChain_drop4 ws)]
  have hempty : IndexStr.isEmpty ⟨wrapperChain ws, 4⟩ = false := by
    unfold IndexStr.isEmpty IndexStr.rest
    dsimp only
    rw [wrapperChain_drop4]
    simp
  have henc : parseEncoding maxDepth SubstitutionTable.new ⟨wrapperChain ws, 2⟩
      = .error .RecursionLimitExceeded := by
    unfold parseEncoding
    rw [hname]
    dsimp only
    rw [hempty]
    rw [if_neg (by decide)]
    rw [hbare]
    rfl
  unfold Symbol.newWithDepth MangledName.parseWithDepth
  rw [htake2]
  dsimp only
  rw [if_neg (by decide), henc]

/-- C6: every chain of nested wrapper type constructs — pointers, references
and arrays, in any combination and order — whose nesting reaches the
configured maximum recursion depth makes parsing fail with
`RecursionLimitExceeded`, for every configured depth and every such chain
(the guard is a configurable parameter of the entry point, and the parser's
recursion is structurally bounded by it, so the call stack stays bounded
regardless of the chain's length); in particular this holds for the default
configuration used by `Symbol::new`. -/
theorem spec_c6_recursion_limit :
    (∀ (maxDepth : Nat) (ws : List WrapperKind), maxDepth ≤ ws.length →
      Symbol.newWithDepth maxDepth (wrapperChain ws)
        = .error .RecursionLimitExceeded) ∧
    (∀ ws : List WrapperKind, defaultMaxRecursionDepth ≤ ws.length →
      Symbol.new (wrapperChain ws) = .error .RecursionLimitExceeded) :=
  ⟨fun maxDepth ws h => newWithDepth_wrapperChain maxDepth ws h,
   fun ws h => newWithDepth_wrapperChain defaultMaxRecursionDepth ws h⟩

/-- Witness for C6: with the depth limit configured to 2, the mixed
pointer-reference-array chain of length 3 is rejected with
`RecursionLimitExceeded`; with the default limit, a chain of 100 pointer
wrappers is rejected likewise. -/
theorem spec_c6_recursion_limit_witness :
    Symbol.newWithDepth 2 (wrapperChain [.pointer, .reference, .array])
      = .error .RecursionLimitExceeded ∧
    Symbol.new (wrapperChain (List.replicate 100 .pointer))
      = .error .RecursionLimitExceeded :=
  ⟨spec_c6_recursion_limit.1 2 [.pointer, .reference, .array] (by decide),
   spec_c6_recursion_limit.2 (List.replicate 100 .pointer) (by decide)⟩

end CppDemangle
